import Mathlib

/-!
Verification of the fakenet userspace network stack (Rust) against its
natural-language specification.

The development shallowly embeds the protocol-engine kernel of the source:

* `src/protocols/ipv6/address.rs` — the IPv6 address value type, its
  `u128` conversions, `prefix`/`suffix` masking, `Display` and `FromStr`;
* `src/protocols/ipv6/icmpv6.rs` — ICMPv6 packet encode/decode and the
  Internet checksum over the RFC 8200 §8.1 pseudo-header;
* `src/protocols/ipv6/packet.rs` — the IPv6 packet encoder with its
  extension-header chain, and `NextHeader` conversion;
* `src/protocols/arp.rs` — the ARP packet codec and the responder loop;
* `src/delay_queue.rs` — the `BTreeMap`-backed delay queue.

Rust machine integers are embedded as `Nat` with explicit `% 2 ^ w`
reductions where wrap-around can occur (the checksum accumulator is `u32`
with wrapping addition; `as u8`/`as u16` casts truncate).  Fallible code
returns `Option`/`Except`: `Option.none` embeds a Rust panic (slice out of
bounds, `unwrap`, `todo!`), while `Except.error` embeds an error *value*
(a `nom` parse error or an `anyhow` bail).
-/

namespace Fakenet

/-! ## Byte-level encoding helpers (`src/protocols/encdec.rs`)

`EncodeTo for u16`/`u32` write network byte order via
`NetworkEndian::write_u16`/`write_u32`; each emitted byte is the
corresponding 8-bit slice of the value. -/

/-- Big-endian bytes of a `u16` value. -/
def be16 (v : Nat) : List Nat :=
  [(v >>> 8) % 256, v % 256]

/-- Big-endian bytes of a `u32` value. -/
def be32 (v : Nat) : List Nat :=
  [(v >>> 24) % 256, (v >>> 16) % 256, (v >>> 8) % 256, v % 256]

/-! ## IPv6 addresses (`src/protocols/ipv6/address.rs`) -/

/-- `pub struct Address(pub [u16; 8])`: eight 16-bit groups in network
order.  The `[u16; 8]` array is embedded as a `List Nat`; `Wf` states the
typing invariant the Rust array carries for free. -/
structure Ipv6Address where
  parts : List Nat
deriving DecidableEq, Repr

/-- The `[u16; 8]` typing invariant: eight groups, each a 16-bit value. -/
def Ipv6Address.Wf (a : Ipv6Address) : Prop :=
  a.parts.length = 8 ∧ ∀ x ∈ a.parts, x < 65536

instance : DecidablePred Ipv6Address.Wf := fun a => by
  unfold Ipv6Address.Wf; infer_instance

/-- `impl From<Address> for u128`: `result = (result << 16) | part` folded
over the groups in order. -/
def Ipv6Address.toU128 (a : Ipv6Address) : Nat :=
  a.parts.foldl (fun result part => (result <<< 16) ||| part) 0

/-- `impl From<u128> for Address`: group `i` (from the left) is
`(addr >> (16 * (7 - i))) & 0xffff`.  The source loops `i` over
`(0..8).rev()`, masking the low 16 bits and shifting right afterwards,
which extracts exactly these slices. -/
def Ipv6Address.ofU128 (addr : Nat) : Ipv6Address :=
  ⟨(List.range 8).map fun i => (addr >>> (16 * (7 - i))) &&& 0xffff⟩

/-- `Address::prefix(len)`: keep the high `len` bits.  For `len = 0` the
source returns `0u128.into()`; otherwise it masks with
`(!0u128) << (128 - len)`, a `u128` shift (result reduced mod `2 ^ 128`).
Source name: `prefix` (renamed here to avoid clashing with Lean
notation keywords). -/
def Ipv6Address.prefixBits (a : Ipv6Address) (len : Nat) : Ipv6Address :=
  if len = 0 then Ipv6Address.ofU128 0
  else Ipv6Address.ofU128 (a.toU128 &&& ((2 ^ 128 - 1) <<< (128 - len)) % 2 ^ 128)

/-- `Address::suffix(len)`: keep the low `len` bits.  For `len = 0` the
source returns `0u128.into()`; otherwise it masks with
`(!0u128) >> (128 - len)`. -/
def Ipv6Address.suffixBits (a : Ipv6Address) (len : Nat) : Ipv6Address :=
  if len = 0 then Ipv6Address.ofU128 0
  else Ipv6Address.ofU128 (a.toU128 &&& (2 ^ 128 - 1) >>> (128 - len))

/-! ### Arithmetic bridges for the bit-level proofs -/

/-- Splicing a value below a left shift: for `p < 2 ^ k` the bitwise or
`(r <<< k) ||| p` is ordinary addition. -/
theorem lor_shiftLeft_eq_add {p : Nat} (r k : Nat) (hp : p < 2 ^ k) :
    (r <<< k) ||| p = r * 2 ^ k + p := by
  have hmod : ((r <<< k) ||| p) % 2 ^ k = p := by
    have h1 : ((r <<< k) ||| p) &&& (2 ^ k - 1) = ((r <<< k) ||| p) % 2 ^ k :=
      Nat.and_pow_two_sub_one_eq_mod _ k
    have h2 : ((r <<< k) ||| p) &&& (2 ^ k - 1) = p := by
      apply Nat.eq_of_testBit_eq
      intro i
      rw [Nat.testBit_and, Nat.testBit_or, Nat.testBit_shiftLeft,
        Nat.testBit_two_pow_sub_one]
      by_cases hik : i < k
      · simp [hik, Nat.not_le.mpr hik]
      · have : p.testBit i = false :=
          Nat.testBit_eq_false_of_lt
            (lt_of_lt_of_le hp (Nat.pow_le_pow_right (by omega) (by omega)))
        simp [hik, this]
    omega
  have hdiv : ((r <<< k) ||| p) >>> k = r := by
    apply Nat.eq_of_testBit_eq
    intro i
    rw [Nat.testBit_shiftRight, Nat.testBit_or, Nat.testBit_shiftLeft]
    have : p.testBit (k + i) = false :=
      Nat.testBit_eq_false_of_lt
        (lt_of_lt_of_le hp (Nat.pow_le_pow_right (by omega) (by omega)))
    simp [this, Nat.add_sub_cancel_left, Nat.le_add_right]
  have hsplit : ((r <<< k) ||| p) = 2 ^ k * (((r <<< k) ||| p) / 2 ^ k) +
      ((r <<< k) ||| p) % 2 ^ k := (Nat.div_add_mod _ _).symm
  rw [Nat.shiftRight_eq_div_pow] at hdiv
  rw [hmod, hdiv, Nat.mul_comm] at hsplit
  omega

theorem toU128_explicit (p0 p1 p2 p3 p4 p5 p6 p7 : Nat)
    (h : ∀ x ∈ [p0, p1, p2, p3, p4, p5, p6, p7], x < 65536) :
    Ipv6Address.toU128 ⟨[p0, p1, p2, p3, p4, p5, p6, p7]⟩ =
      p0 * 2 ^ 112 + p1 * 2 ^ 96 + p2 * 2 ^ 80 + p3 * 2 ^ 64 +
      p4 * 2 ^ 48 + p5 * 2 ^ 32 + p6 * 2 ^ 16 + p7 := by
  simp only [List.mem_cons, List.not_mem_nil, or_false, forall_eq_or_imp, forall_eq] at h
  obtain ⟨h0, h1, h2, h3, h4, h5, h6, h7⟩ := h
  show List.foldl (fun result part => (result <<< 16) ||| part) 0
      [p0, p1, p2, p3, p4, p5, p6, p7] = _
  simp only [List.foldl]
  rw [lor_shiftLeft_eq_add _ 16 (by omega)]
  rw [lor_shiftLeft_eq_add _ 16 (by omega)]
  rw [lor_shiftLeft_eq_add _ 16 (by omega)]
  rw [lor_shiftLeft_eq_add _ 16 (by omega)]
  rw [lor_shiftLeft_eq_add _ 16 (by omega)]
  rw [lor_shiftLeft_eq_add _ 16 (by omega)]
  rw [lor_shiftLeft_eq_add _ 16 (by omega)]
  rw [lor_shiftLeft_eq_add _ 16 (by omega)]
  ring

theorem toU128_lt {a : Ipv6Address} (ha : a.Wf) : a.toU128 < 2 ^ 128 := by
  obtain ⟨hlen, hlt⟩ := ha
  match a, hlen with
  | ⟨[p0, p1, p2, p3, p4, p5, p6, p7]⟩, _ =>
    rw [toU128_explicit p0 p1 p2 p3 p4 p5 p6 p7 (by simpa using hlt)]
    have h0 := hlt p0 (by simp)
    have h1 := hlt p1 (by simp)
    have h2 := hlt p2 (by simp)
    have h3 := hlt p3 (by simp)
    have h4 := hlt p4 (by simp)
    have h5 := hlt p5 (by simp)
    have h6 := hlt p6 (by simp)
    have h7 := hlt p7 (by simp)
    norm_num at *
    omega

theorem ofU128_parts (x : Nat) :
    Ipv6Address.ofU128 x =
      ⟨[(x >>> 112) % 65536, (x >>> 96) % 65536, (x >>> 80) % 65536,
        (x >>> 64) % 65536, (x >>> 48) % 65536, (x >>> 32) % 65536,
        (x >>> 16) % 65536, x % 65536]⟩ := by
  show Ipv6Address.mk _ = _
  congr 1
  have hmask : ∀ y : Nat, y &&& 0xffff = y % 65536 := fun y => by
    have := Nat.and_pow_two_sub_one_eq_mod y 16
    norm_num at this ⊢
    omega
  simp [List.range_succ, hmask]

theorem ofU128_toU128 {a : Ipv6Address} (ha : a.Wf) :
    Ipv6Address.ofU128 a.toU128 = a := by
  obtain ⟨hlen, hlt⟩ := ha
  match a, hlen with
  | ⟨[p0, p1, p2, p3, p4, p5, p6, p7]⟩, _ =>
    have h0 := hlt p0 (by simp)
    have h1 := hlt p1 (by simp)
    have h2 := hlt p2 (by simp)
    have h3 := hlt p3 (by simp)
    have h4 := hlt p4 (by simp)
    have h5 := hlt p5 (by simp)
    have h6 := hlt p6 (by simp)
    have h7 := hlt p7 (by simp)
    rw [toU128_explicit p0 p1 p2 p3 p4 p5 p6 p7 (by simpa using hlt), ofU128_parts]
    simp only [Nat.shiftRight_eq_div_pow]
    congr 1
    norm_num
    refine ⟨?_, ?_, ?_, ?_, ?_, ?_, ?_, ?_⟩ <;> omega

theorem toU128_ofU128 (x : Nat) :
    (Ipv6Address.ofU128 x).toU128 = x % 2 ^ 128 := by
  rw [ofU128_parts]
  rw [toU128_explicit _ _ _ _ _ _ _ _ (by
    intro y hy
    simp only [List.mem_cons, List.not_mem_nil, or_false] at hy
    rcases hy with h | h | h | h | h | h | h | h <;> subst h <;> exact Nat.mod_lt _ (by norm_num))]
  simp only [Nat.shiftRight_eq_div_pow]
  norm_num
  omega

theorem testBit_toU128_prefixBits {a : Ipv6Address} {n : Nat} (ha : a.Wf)
    (hn : n ≤ 128) (i : Nat) :
    ((a.prefixBits n).toU128).testBit i =
      (a.toU128.testBit i && decide (128 - n ≤ i)) := by
  have hX := toU128_lt ha
  have hhigh : 128 ≤ i → a.toU128.testBit i = false := fun hi =>
    Nat.testBit_eq_false_of_lt
      (lt_of_lt_of_le hX (Nat.pow_le_pow_right (by omega) hi))
  unfold Ipv6Address.prefixBits
  by_cases h0 : n = 0
  · subst h0
    rw [if_pos rfl, toU128_ofU128]
    simp only [Nat.zero_mod, Nat.zero_testBit, Nat.sub_zero]
    by_cases hi : 128 ≤ i
    · simp [hhigh hi]
    · simp [hi]
  · rw [if_neg h0, toU128_ofU128, Nat.mod_eq_of_lt
      (lt_of_le_of_lt Nat.and_le_left hX)]
    rw [Nat.testBit_and, Nat.testBit_mod_two_pow, Nat.testBit_shiftLeft,
      Nat.testBit_two_pow_sub_one]
    by_cases hi : i < 128
    · have : i - (128 - n) < 128 := by omega
      by_cases hge : 128 - n ≤ i
      · simp [hi, hge, this]
      · simp [hi, hge]
    · simp [hi, hhigh (by omega)]

theorem testBit_toU128_suffixBits {a : Ipv6Address} {m : Nat} (ha : a.Wf)
    (hm : m ≤ 128) (i : Nat) :
    ((a.suffixBits m).toU128).testBit i =
      (a.toU128.testBit i && decide (i < m)) := by
  have hX := toU128_lt ha
  unfold Ipv6Address.suffixBits
  by_cases h0 : m = 0
  · subst h0
    rw [if_pos rfl, toU128_ofU128]
    simp
  · rw [if_neg h0, toU128_ofU128, Nat.mod_eq_of_lt
      (lt_of_le_of_lt Nat.and_le_left hX)]
    rw [Nat.testBit_and, Nat.testBit_shiftRight, Nat.testBit_two_pow_sub_one]
    have : (128 - m + i < 128) = (i < m) := by
      apply propext
      omega
    simp [this]

/-- Claim C8.  For every well-formed IPv6 address `a` and every
`n ∈ [0, 128]`: `prefix(n)` keeps exactly the high `n` bits of the
address's `u128` image and `suffix(n)` keeps exactly the low `n` bits
(`n = 0` yields the all-zero address), so the bitwise or of `a.prefix(n)`
and `a.suffix(128 - n)` is `a` again and their bitwise and is zero. -/
theorem prefix_suffix_partition (a : Ipv6Address) (n : Nat) (ha : a.Wf)
    (hn : n ≤ 128) :
    (∀ i, ((a.prefixBits n).toU128).testBit i =
        (a.toU128.testBit i && decide (128 - n ≤ i))) ∧
    (∀ i, ((a.suffixBits n).toU128).testBit i =
        (a.toU128.testBit i && decide (i < n))) ∧
    Ipv6Address.ofU128
      ((a.prefixBits n).toU128 ||| (a.suffixBits (128 - n)).toU128) = a ∧
    (a.prefixBits n).toU128 &&& (a.suffixBits (128 - n)).toU128 = 0 := by
  refine ⟨testBit_toU128_prefixBits ha hn, testBit_toU128_suffixBits ha hn, ?_, ?_⟩
  · have hor : (a.prefixBits n).toU128 ||| (a.suffixBits (128 - n)).toU128 =
        a.toU128 := by
      apply Nat.eq_of_testBit_eq
      intro i
      rw [Nat.testBit_or, testBit_toU128_prefixBits ha hn i,
        testBit_toU128_suffixBits ha (by omega) i]
      cases h : a.toU128.testBit i
      · simp
      · simp only [Bool.true_and]
        have : (128 - n ≤ i) ∨ (i < 128 - n) := by omega
        rcases this with h1 | h1 <;> simp [h1]
    rw [hor]
    exact ofU128_toU128 ha
  · apply Nat.eq_of_testBit_eq
    intro i
    rw [Nat.testBit_and, testBit_toU128_prefixBits ha hn i,
      testBit_toU128_suffixBits ha (by omega) i, Nat.zero_testBit]
    cases h : a.toU128.testBit i
    · simp
    · simp only [Bool.true_and]
      by_cases h1 : 128 - n ≤ i
      · have h2 : ¬(i < 128 - n) := by omega
        simp [h1, h2]
      · simp [h1]

/-- Witness for C8 at the address `fedc:ba98:7654:3210:fedc:ba98:7654:3210`
and `n = 30` (the address and length used by the source's own
`prefix_gets_exactly_the_desired_bits` test). -/
theorem prefix_suffix_partition_witness :
    (Ipv6Address.mk
        [0xfedc, 0xba98, 0x7654, 0x3210, 0xfedc, 0xba98, 0x7654, 0x3210]).Wf ∧
    (30 : Nat) ≤ 128 ∧
    Ipv6Address.ofU128
      (((Ipv6Address.mk
          [0xfedc, 0xba98, 0x7654, 0x3210, 0xfedc, 0xba98, 0x7654, 0x3210]).prefixBits
            30).toU128 |||
        ((Ipv6Address.mk
          [0xfedc, 0xba98, 0x7654, 0x3210, 0xfedc, 0xba98, 0x7654, 0x3210]).suffixBits
            (128 - 30)).toU128) =
      Ipv6Address.mk
        [0xfedc, 0xba98, 0x7654, 0x3210, 0xfedc, 0xba98, 0x7654, 0x3210] :=
  ⟨by decide, by decide,
    (prefix_suffix_partition _ 30 (by decide) (by decide)).2.2.1⟩

/-- Sanity check against the source's `prefix_gets_exactly_the_desired_bits`
test: `prefix(30)` of the test address is `fedc:ba98::`. -/
example :
    (Ipv6Address.mk
        [0xfedc, 0xba98, 0x7654, 0x3210, 0xfedc, 0xba98, 0x7654, 0x3210]).prefixBits 30 =
      Ipv6Address.mk [0xfedc, 0xba98, 0, 0, 0, 0, 0, 0] := by decide

/-- Sanity check against the source's `suffix_gets_exactly_the_desired_bits`
test: `suffix(30)` of the test address is `::3654:3210`. -/
example :
    (Ipv6Address.mk
        [0xfedc, 0xba98, 0x7654, 0x3210, 0xfedc, 0xba98, 0x7654, 0x3210]).suffixBits 30 =
      Ipv6Address.mk [0, 0, 0, 0, 0, 0, 0x3654, 0x3210] := by decide

/-! ## IP protocol numbers and the IPv6 next-header byte
(`src/protocols/ipv4.rs`, `src/protocols/ipv6/packet.rs`) -/

/-- `proto_enum_with_unknown!(ProtocolNumber, u8, { Udp = 17, Ipv6Icmp = 58 })`:
an open enum whose `TryFrom<u8>` never fails, preserving unlisted values as
`Unknown`. -/
inductive ProtocolNumber where
  | Udp
  | Ipv6Icmp
  | Unknown (value : Nat)
deriving DecidableEq, Repr

/-- `TryFrom<u8> for ProtocolNumber` as generated by
`proto_enum_with_unknown!`: listed discriminants map to their variants,
everything else to `Unknown(value)`.  The Rust conversion returns
`Result` but has no error path; `Option` keeps the fallible signature. -/
def ProtocolNumber.tryFrom (value : Nat) : Option ProtocolNumber :=
  if value = 17 then some .Udp
  else if value = 58 then some .Ipv6Icmp
  else some (.Unknown value)

/-- `EncodeTo` for `proto_enum_with_unknown!` enums: the variant's
discriminant, or the preserved value for `Unknown`. -/
def ProtocolNumber.encodeByte : ProtocolNumber → Nat
  | .Udp => 17
  | .Ipv6Icmp => 58
  | .Unknown value => value

/-- `enum NextHeader { Unset, HopByHopOptions, Protocol(ProtocolNumber) }`. -/
inductive NextHeader where
  | Unset
  | HopByHopOptions
  | Protocol (proto : ProtocolNumber)
deriving DecidableEq, Repr

/-- `TryFrom<u8> for NextHeader`: `0` becomes `HopByHopOptions`, any other
byte goes through `ProtocolNumber::try_from` and is wrapped in
`Protocol`. -/
def NextHeader.tryFrom (value : Nat) : Option NextHeader :=
  if value = 0 then some .HopByHopOptions
  else (ProtocolNumber.tryFrom value).map .Protocol

/-- `EncodeTo for NextHeader`: `HopByHopOptions` is byte `0`, a protocol
is its number, and encoding `Unset` is `panic!` (embedded as `none`). -/
def NextHeader.encodeByte : NextHeader → Option Nat
  | .HopByHopOptions => some 0
  | .Unset => none
  | .Protocol proto => some proto.encodeByte

/-- Claim C10.  Conversion of a next-header byte is total: every byte
value converts successfully, `0` maps to `HopByHopOptions` (so the
hop-by-hop value is never exposed as `Protocol(0)`), and every other
value maps to `Protocol`, with values other than `17` and `58` preserved
as `Protocol(Unknown(v))` — IPv6 packet parsing can therefore never fail
on the next-header byte itself. -/
theorem next_header_try_from_total (v : Nat) (hv : v < 256) :
    NextHeader.tryFrom v =
      some (if v = 0 then .HopByHopOptions
        else .Protocol
          (if v = 17 then .Udp else if v = 58 then .Ipv6Icmp
           else .Unknown v)) := by
  unfold NextHeader.tryFrom ProtocolNumber.tryFrom
  by_cases h0 : v = 0
  · simp [h0]
  · by_cases h17 : v = 17
    · simp [h0, h17]
    · by_cases h58 : v = 58
      · simp [h0, h17, h58]
      · simp [h0, h17, h58]

/-- Witness for C10 at the hop-by-hop byte `0` itself. -/
theorem next_header_try_from_total_witness :
    (0 : Nat) < 256 ∧
    NextHeader.tryFrom 0 =
      some (if 0 = 0 then .HopByHopOptions
        else .Protocol
          (if 0 = 17 then .Udp else if 0 = 58 then .Ipv6Icmp
           else .Unknown 0)) :=
  ⟨by decide, next_header_try_from_total 0 (by decide)⟩

/-! ## The delay queue (`src/delay_queue.rs`)

`DelayQueue<T>` wraps a `BTreeMap<Instant, T>`.  The map is embedded as an
association list sorted by strictly increasing key, with `Instant` as
`Nat`; `BTreeMap::insert` places the new entry at its key's position and
*replaces* the stored value when the key is already present. -/

/-- `pub struct DelayQueue<T> { items: BTreeMap<Instant, T> }`. -/
def DelayQueue (T : Type) : Type := List (Nat × T)

/-- The empty queue (`DelayQueue::new`). -/
def DelayQueue.new {T : Type} : DelayQueue T := []

/-- `DelayQueue::push_at(t, i)` is `self.items.insert(t, i)`: insert
before the first strictly larger key, replacing an entry whose key is
equal. -/
def DelayQueue.pushAt {T : Type} : DelayQueue T → Nat → T → DelayQueue T
  | [], t, v => [(t, v)]
  | (k, w) :: rest, t, v =>
    if t < k then (t, v) :: (k, w) :: rest
    else if t = k then (t, v) :: rest
    else (k, w) :: DelayQueue.pushAt rest t v

/-- `DelayQueue::pop`: read the smallest key (`items.keys().next()`, the
head of the sorted list) and `remove` it, returning the stored value, or
`None` when empty.  Also returns the remaining queue, which the Rust
method mutates in place. -/
def DelayQueue.pop {T : Type} : DelayQueue T → Option T × DelayQueue T
  | [] => (none, [])
  | (_, v) :: rest => (some v, rest)

/-- Counterexample to C4 at a concrete input: push `1` then `2` at the
identical deadline `5`.  The claim says both values remain and pops
return `1` before `2`; in fact the first pop already returns `2` and the
queue is then empty, because the second insert replaced the first. -/
theorem delay_queue_tie_counterexample :
    ¬((((DelayQueue.new.pushAt 5 1).pushAt 5 2).pop.1 = some 1) ∧
      ((((DelayQueue.new.pushAt 5 1).pushAt 5 2).pop.2.pop.1 = some 2))) ∧
    (((DelayQueue.new.pushAt 5 1).pushAt 5 (2 : Nat)).pop.1 = some 2) ∧
    (((DelayQueue.new.pushAt 5 1).pushAt 5 (2 : Nat)).pop.2.pop.1 = none) := by
  refine ⟨?_, by decide, by decide⟩
  intro h
  exact absurd h.1 (by decide)

/-- Claim C4, amended.  Pushing a second value at an identical deadline
does not keep both values: `BTreeMap::insert` replaces the stored value,
so after `push_at(t, a); push_at(t, b)` only `b` remains — on any prior
queue contents the two consecutive pushes collapse to the second one, and
starting from the empty queue a single pop returns `b` and leaves the
queue empty. -/
theorem delay_queue_push_same_deadline_replaces {T : Type}
    (q : DelayQueue T) (t : Nat) (a b : T) :
    ((q.pushAt t a).pushAt t b = q.pushAt t b) ∧
    (((DelayQueue.new.pushAt t a).pushAt t b).pop =
      (some b, DelayQueue.new)) := by
  constructor
  · induction q with
    | nil => simp [DelayQueue.pushAt]
    | cons head rest ih =>
      obtain ⟨k, w⟩ := head
      by_cases h1 : t < k
      · simp [DelayQueue.pushAt, h1]
      · by_cases h2 : t = k
        · subst h2
          simp [DelayQueue.pushAt, h1]
        · simp [DelayQueue.pushAt, h1, h2, ih]
  · simp [DelayQueue.new, DelayQueue.pushAt, DelayQueue.pop]

/-! ## Ethernet and IPv4 value types (`src/protocols/ether.rs`,
`src/protocols/ipv4.rs`) -/

/-- `ether::Address(pub [u8; 6])`: a MAC address as six octets. -/
structure EtherAddress where
  bytes : List Nat
deriving DecidableEq, Repr

/-- `ipv4::Address(pub [u8; 4])`: an IPv4 address as four octets. -/
structure Ipv4Address where
  bytes : List Nat
deriving DecidableEq, Repr

/-- `proto_enum!(Type, u16, { Arp = 0x0806, Ipv4 = 0x0800, Ipv6 = 0x86DD })`:
the closed EtherType enum. -/
inductive EtherType where
  | Arp
  | Ipv4
  | Ipv6
deriving DecidableEq, Repr

/-- `ether::Frame`: destination, source, EtherType and payload bytes. -/
structure EtherFrame where
  dest : EtherAddress
  src : EtherAddress
  ethertype : EtherType
  payload : List Nat
deriving DecidableEq, Repr

/-! ## The Internet checksum (`packet_checksum` in
`src/protocols/ipv6/icmpv6.rs`)

The checksum input is the RFC 8200 §8.1 pseudo-header — src(16),
dest(16), upper-layer length (u32, big-endian), a zero u16, a zero u8 and
the next-header byte 58 — concatenated with the message.  The sum loop
reads the buffer two bytes at a time as `(buf[i] << 8) | buf[i+1]`,
accumulating into a `u32` (wrapping addition accumulates to the total
modulo `2 ^ 32`); when the buffer has odd length the final iteration
indexes `buf[i+1]` one past the end and panics, embedded as `none`.
Carries are folded back in until the value fits 16 bits, and the result
is the bitwise complement as `u16`. -/

/-- `PseudoHeader { src, dest, length }` (`length` is `u32`). -/
structure PseudoHeader where
  src : Ipv6Address
  dest : Ipv6Address
  length : Nat
deriving DecidableEq, Repr

/-- `EncodeTo for Address` (IPv6): each 16-bit group big-endian. -/
def addrBytes (a : Ipv6Address) : List Nat :=
  a.parts.flatMap be16

/-- The checksummed pseudo-header prefix: the `encode!` of
`src, dest, length, 0u16, 0u8, ProtocolNumber::Ipv6Icmp`. -/
def pseudoHeaderBytes (ph : PseudoHeader) : List Nat :=
  addrBytes ph.src ++ addrBytes ph.dest ++ be32 ph.length ++
    [0, 0] ++ [0] ++ [ProtocolNumber.encodeByte .Ipv6Icmp]

/-- The 16-bit-word sum of a byte buffer, two bytes at a time. -/
def wordSum : List Nat → Nat
  | a :: b :: rest => ((a <<< 8) ||| b) + wordSum rest
  | _ => 0

/-- The carry-folding loop: `while checksum > 0xffff { checksum =
(checksum & 0xffff) + (checksum >> 16) }`. -/
def foldCarry (x : Nat) : Nat :=
  if h : 65535 < x then foldCarry ((x &&& 65535) + (x >>> 16)) else x
termination_by x
decreasing_by
  have h1 : x &&& 65535 = x % 65536 := by
    have := Nat.and_pow_two_sub_one_eq_mod x 16
    norm_num at this
    omega
  have h2 : x >>> 16 = x / 65536 := by
    rw [Nat.shiftRight_eq_div_pow]
  omega

/-- Bitwise complement cast to `u16`: `!(checksum as u16)`. -/
def bnot16 (x : Nat) : Nat := 65535 - x % 65536

/-- `packet_checksum(input, pseudo_header)`.  Returns `none` when the
concatenated buffer has odd length (the word loop would index one byte
past the end and panic). -/
def packetChecksum (input : List Nat) (ph : PseudoHeader) : Option Nat :=
  let buf := pseudoHeaderBytes ph ++ input
  if buf.length % 2 = 1 then none
  else some (bnot16 (foldCarry (wordSum buf % 2 ^ 32)))

/-! ## ICMPv6 packets (`src/protocols/ipv6/icmpv6.rs`) -/

/-- `enum NeighborSolicitationOption`. -/
inductive NeighborSolicitationOption where
  | SourceLinkLayerAddress (address : EtherAddress)
  | TargetLinkLayerAddress (address : EtherAddress)
  | Nonce (nonce : List Nat)
deriving DecidableEq, Repr

/-- `proto_enum!(Mldv2AddressRecordType, u8, ...)` with the source's
variant spellings (`CllowNewSources`, `ClockOldSources` are the source's
own names for values 5 and 6). -/
inductive Mldv2AddressRecordType where
  | CodeIsInclude
  | CodeIsExclude
  | ChangeToIncludeMode
  | ChangeToExcludeMode
  | CllowNewSources
  | ClockOldSources
deriving DecidableEq, Repr

/-- `TryFrom<u8>` for the closed record-type enum: unlisted values fail
(a parse-error value, not a panic). -/
def Mldv2AddressRecordType.tryFrom (value : Nat) : Option Mldv2AddressRecordType :=
  if value = 1 then some .CodeIsInclude
  else if value = 2 then some .CodeIsExclude
  else if value = 3 then some .ChangeToIncludeMode
  else if value = 4 then some .ChangeToExcludeMode
  else if value = 5 then some .CllowNewSources
  else if value = 6 then some .ClockOldSources
  else none

/-- The discriminant written by `EncodeTo`. -/
def Mldv2AddressRecordType.encodeByte : Mldv2AddressRecordType → Nat
  | .CodeIsInclude => 1
  | .CodeIsExclude => 2
  | .ChangeToIncludeMode => 3
  | .ChangeToExcludeMode => 4
  | .CllowNewSources => 5
  | .ClockOldSources => 6

/-- `MldV2AddressRecord { record_type, address }`. -/
structure MldV2AddressRecord where
  record_type : Mldv2AddressRecordType
  address : Ipv6Address
deriving DecidableEq, Repr

/-- `EncodeTo for MldV2AddressRecord`: record type, `0u8` (Aux Data Len),
`0u16` (Number of Sources), then the 16 address bytes. -/
def MldV2AddressRecord.encodeBytes (r : MldV2AddressRecord) : List Nat :=
  r.record_type.encodeByte :: 0 :: 0 :: 0 :: addrBytes r.address

/-- `enum Packet` for ICMPv6. -/
inductive IcmpV6Packet where
  | RouterSolicitation
  | NeighborSolicitation (dest : Ipv6Address)
      (options : List NeighborSolicitationOption)
  | NeighborAdvertisement (src : Ipv6Address)
      (options : List NeighborSolicitationOption)
  | MldV2Report (records : List MldV2AddressRecord)
deriving DecidableEq, Repr

/-- `EncodeTo for NeighborSolicitationOption`: only `Nonce` is
implemented; the link-layer-address options hit `todo!` (a panic,
embedded as `none`).  A nonce encodes as the option type byte `14`, the
length byte `((nonce.len() + 2) as f64 / 8).ceil() as u8` — for values
below the `u8` saturation point the `f64` arithmetic is exact, so this
is `(nonce.len() + 9) / 8` saturated at `255` — and the raw nonce
bytes. -/
def NeighborSolicitationOption.encodeBytes :
    NeighborSolicitationOption → Option (List Nat)
  | .Nonce nonce => some (14 :: min ((nonce.length + 9) / 8) 255 :: nonce)
  | _ => none

/-- The per-variant body of `Packet::encode`, with the 16-bit checksum
field (bytes 2 and 3) still zero.  `NeighborSolicitation` is
`Type(135) | Code(0) | Checksum(0,0) | Reserved(u32 0) | dest | options`;
`MldV2Report` is `Type(143) | Reserved(0) | Checksum(0,0) |
Reserved(u16 0) | records.len() as u16 | records`.  The other two
variants hit `todo!` (a panic, embedded as `none`). -/
def IcmpV6Packet.encodeBodyZero : IcmpV6Packet → Option (List Nat)
  | .NeighborSolicitation dest options =>
    match options.mapM NeighborSolicitationOption.encodeBytes with
    | none => none
    | some opts =>
      some (135 :: 0 :: 0 :: 0 ::
        ([0, 0, 0, 0] ++ addrBytes dest ++ opts.flatten))
  | .MldV2Report records =>
    some (143 :: 0 :: 0 :: 0 ::
      ([0, 0] ++ be16 (records.length % 65536) ++
        records.flatMap MldV2AddressRecord.encodeBytes))
  | _ => none

/-- `Packet::encode(pseudo_header)`: build the body with a zero checksum
placeholder, compute the checksum over it with the pseudo-header's length
field set to the encoded length, and write the checksum big-endian into
bytes 2 and 3.  (The source then `assert!`s that re-checksumming yields
zero; `icmpv6_encode_checksum_valid` proves that assertion can never
fire.)  `none` embeds the panics: an unimplemented variant or option, or
the checksum loop running off an odd-length buffer. -/
def IcmpV6Packet.encode (p : IcmpV6Packet) (ph : PseudoHeader) :
    Option (List Nat) :=
  match p.encodeBodyZero with
  | none => none
  | some body =>
    match packetChecksum body ⟨ph.src, ph.dest, body.length⟩ with
    | none => none
    | some cks =>
      match body with
      | b0 :: b1 :: _ :: _ :: rest =>
        some (b0 :: b1 :: (cks >>> 8) % 256 :: cks % 256 :: rest)
      | _ => none

/-! ### Properties of the carry fold and the word sum -/

theorem foldCarry_eq (x : Nat) :
    foldCarry x = if 65535 < x then foldCarry (x % 65536 + x / 65536) else x := by
  have h1 : x &&& 65535 = x % 65536 := by
    have := Nat.and_pow_two_sub_one_eq_mod x 16
    norm_num at this
    omega
  have h2 : x >>> 16 = x / 65536 := by
    rw [Nat.shiftRight_eq_div_pow]
  by_cases h : 65535 < x
  · rw [foldCarry]
    simp [h, h1, h2]
  · rw [foldCarry]
    simp [h]

theorem foldCarry_le (x : Nat) : foldCarry x ≤ 65535 := by
  induction x using Nat.strong_induction_on with
  | _ x ih =>
    rw [foldCarry_eq]
    by_cases h : 65535 < x
    · rw [if_pos h]
      exact ih _ (by omega)
    · rw [if_neg h]
      omega

theorem foldCarry_mod (x : Nat) : foldCarry x % 65535 = x % 65535 := by
  induction x using Nat.strong_induction_on with
  | _ x ih =>
    rw [foldCarry_eq]
    by_cases h : 65535 < x
    · rw [if_pos h, ih _ (by omega)]
      omega
    · rw [if_neg h]

theorem foldCarry_pos {x : Nat} (hx : 0 < x) : 0 < foldCarry x := by
  induction x using Nat.strong_induction_on with
  | _ x ih =>
    rw [foldCarry_eq]
    by_cases h : 65535 < x
    · rw [if_pos h]
      exact ih _ (by omega) (by omega)
    · rw [if_neg h]
      exact hx

theorem foldCarry_zero : foldCarry 0 = 0 := by
  rw [foldCarry_eq]
  norm_num

theorem foldCarry_of_multiple {x : Nat} (h0 : x % 65535 = 0) (hp : 0 < x) :
    foldCarry x = 65535 := by
  have h1 := foldCarry_le x
  have h2 := foldCarry_mod x
  have h3 := foldCarry_pos hp
  omega

/-- Writing the complement of the folded sum back into the buffer makes
the folded sum of the new buffer `0xffff` — even though the `u32`
accumulator works modulo `2 ^ 32`, adding the complement can never push
the wrapped sum across a `2 ^ 32` boundary. -/
theorem foldCarry_complement (Z : Nat) :
    foldCarry ((Z + (65535 - foldCarry (Z % 2 ^ 32))) % 2 ^ 32) = 65535 := by
  have hSle : foldCarry (Z % 2 ^ 32) ≤ 65535 := foldCarry_le _
  have hSmod : foldCarry (Z % 2 ^ 32) % 65535 = (Z % 2 ^ 32) % 65535 :=
    foldCarry_mod _
  have hZlt : Z % 2 ^ 32 < 2 ^ 32 := Nat.mod_lt _ (by norm_num)
  have hZ0S : Z % 2 ^ 32 = 0 → foldCarry (Z % 2 ^ 32) = 0 := fun h => by
    rw [h, foldCarry_zero]
  set S := foldCarry (Z % 2 ^ 32) with hSdef
  have hmod32 : (Z + (65535 - S)) % 2 ^ 32 =
      ((Z % 2 ^ 32) + (65535 - S)) % 2 ^ 32 := by
    omega
  rw [hmod32]
  by_cases hcase : (Z % 2 ^ 32) + (65535 - S) < 2 ^ 32
  · rw [Nat.mod_eq_of_lt hcase]
    apply foldCarry_of_multiple
    · omega
    · rcases Nat.eq_zero_or_pos (Z % 2 ^ 32) with hz | hz
      · have := hZ0S hz
        omega
      · omega
  · exfalso
    have hSpos : 0 < S := by
      apply foldCarry_pos
      omega
    have hDmod : ((Z % 2 ^ 32) + (65535 - S)) % 65535 = 0 := by omega
    omega

theorem wordSum_append :
    ∀ (l1 l2 : List Nat), l1.length % 2 = 0 →
      wordSum (l1 ++ l2) = wordSum l1 + wordSum l2
  | [], l2, _ => by simp [wordSum]
  | [a], _, h => by simp at h
  | a :: b :: t, l2, h => by
    have ht : t.length % 2 = 0 := by
      simp only [List.length_cons] at h
      omega
    have hrec := wordSum_append t l2 ht
    show wordSum (a :: b :: (t ++ l2)) = wordSum (a :: b :: t) + wordSum l2
    simp only [wordSum]
    omega

theorem flatMap_be16_length :
    ∀ l : List Nat, (l.flatMap be16).length = 2 * l.length
  | [] => rfl
  | x :: t => by
    simp only [List.flatMap_cons, List.length_append, List.length_cons,
      flatMap_be16_length t, be16]
    simp only [List.length_cons, List.length_nil]
    omega

theorem pseudoHeaderBytes_length_even (ph : PseudoHeader) :
    (pseudoHeaderBytes ph).length % 2 = 0 := by
  have h1 : (addrBytes ph.src).length = 2 * ph.src.parts.length :=
    flatMap_be16_length _
  have h2 : (addrBytes ph.dest).length = 2 * ph.dest.parts.length :=
    flatMap_be16_length _
  simp only [pseudoHeaderBytes, List.length_append, h1, h2, be32,
    List.length_cons, List.length_nil]
  omega

theorem be16_word {y : Nat} (hy : y < 65536) :
    (((y >>> 8) % 256) <<< 8) ||| (y % 256) = y := by
  have h8 : y >>> 8 = y / 256 := by
    rw [Nat.shiftRight_eq_div_pow]
  have hlt : y / 256 < 256 := by omega
  rw [h8, Nat.mod_eq_of_lt hlt,
    lor_shiftLeft_eq_add _ 8 (show y % 256 < 2 ^ 8 by omega)]
  norm_num
  omega

/-- Any body `Packet::encode` builds carries its two checksum bytes as
zeros at positions 2 and 3. -/
theorem encodeBodyZero_shape {p : IcmpV6Packet} {body : List Nat}
    (h : p.encodeBodyZero = some body) :
    ∃ b0 rest, body = b0 :: 0 :: 0 :: 0 :: rest := by
  cases p with
  | RouterSolicitation => simp [IcmpV6Packet.encodeBodyZero] at h
  | NeighborSolicitation dest options =>
    simp only [IcmpV6Packet.encodeBodyZero] at h
    cases hm : options.mapM NeighborSolicitationOption.encodeBytes with
    | none => rw [hm] at h; simp at h
    | some opts =>
      rw [hm] at h
      simp only [Option.some.injEq] at h
      exact ⟨135, _, h.symm⟩
  | NeighborAdvertisement src options =>
    simp [IcmpV6Packet.encodeBodyZero] at h
  | MldV2Report records =>
    simp only [IcmpV6Packet.encodeBodyZero, Option.some.injEq] at h
    exact ⟨143, _, h.symm⟩

/-- Claim C3.  For every ICMPv6 packet value for which `encode` is
defined and every pseudo-header (its length field ignored), computing the
Internet checksum of the encoded bytes against the pseudo-header with
length set to the encoded byte count yields `0`: every message produced
by `encode` validates as checksum-correct. -/
theorem icmpv6_encode_checksum_valid (p : IcmpV6Packet) (ph : PseudoHeader)
    (bytes : List Nat) (h : p.encode ph = some bytes) :
    packetChecksum bytes ⟨ph.src, ph.dest, bytes.length⟩ = some 0 := by
  unfold IcmpV6Packet.encode at h
  cases hb : p.encodeBodyZero with
  | none => rw [hb] at h; simp at h
  | some body =>
    rw [hb] at h
    dsimp only at h
    cases hc : packetChecksum body ⟨ph.src, ph.dest, body.length⟩ with
    | none => rw [hc] at h; simp at h
    | some cks =>
      rw [hc] at h
      dsimp only at h
      obtain ⟨b0, rest, hshape⟩ := encodeBodyZero_shape hb
      subst hshape
      dsimp only at h
      simp only [Option.some.injEq] at h
      subst h
      have hlen : (b0 :: 0 :: (cks >>> 8) % 256 :: cks % 256 :: rest).length =
          (b0 :: 0 :: 0 :: 0 :: rest).length := by
        simp
      rw [hlen]
      simp only [packetChecksum] at hc ⊢
      set pb := pseudoHeaderBytes
        ⟨ph.src, ph.dest, (b0 :: 0 :: 0 :: 0 :: rest).length⟩ with hpbdef
      have hpbe : pb.length % 2 = 0 := pseudoHeaderBytes_length_even _
      by_cases hpar : (pb ++ (b0 :: 0 :: 0 :: 0 :: rest)).length % 2 = 1
      · rw [if_pos hpar] at hc
        simp at hc
      · rw [if_neg hpar] at hc
        simp only [Option.some.injEq] at hc
        set Z := wordSum (pb ++ (b0 :: 0 :: 0 :: 0 :: rest)) with hZdef
        have hcks : cks = 65535 - foldCarry (Z % 2 ^ 32) := by
          rw [← hc]
          have := foldCarry_le (Z % 2 ^ 32)
          simp only [bnot16]
          omega
        have hckslt : cks < 65536 := by omega
        have hsum : wordSum (pb ++ (b0 :: 0 :: (cks >>> 8) % 256 ::
            cks % 256 :: rest)) = Z + cks := by
          rw [wordSum_append _ _ hpbe, hZdef, wordSum_append _ _ hpbe]
          have hw : wordSum (b0 :: 0 :: (cks >>> 8) % 256 ::
              cks % 256 :: rest) =
              wordSum (b0 :: 0 :: 0 :: 0 :: rest) + cks := by
            simp only [wordSum, Nat.zero_shiftLeft, Nat.zero_or]
            rw [be16_word hckslt]
            omega
          omega
        have hpar2 : ¬((pb ++ (b0 :: 0 :: (cks >>> 8) % 256 ::
            cks % 256 :: rest)).length % 2 = 1) := by
          simp only [List.length_append, List.length_cons] at hpar ⊢
          omega
        rw [if_neg hpar2, hsum, hcks, foldCarry_complement Z]
        simp [bnot16]

/-! ## ICMPv6 decoding (`src/protocols/ipv6/icmpv6.rs`)

Parsers follow the nom combinators of the source.  A parser returns
`Option (Except Unit (result × remaining))`: the outer `none` embeds a
panic (out-of-bounds slice or `todo!`), `Except.error` a nom parse-error
value. -/

/-- The closed-form value of the carry fold, derived from
`foldCarry_le`, `foldCarry_mod` and `foldCarry_pos`; used to evaluate
checksums on concrete inputs. -/
theorem foldCarry_closed (x : Nat) :
    foldCarry x = if x = 0 then 0 else (x - 1) % 65535 + 1 := by
  by_cases h : x = 0
  · simp [h, foldCarry_zero]
  · have h1 := foldCarry_le x
    have h2 := foldCarry_mod x
    have h3 := foldCarry_pos (show 0 < x by omega)
    rw [if_neg h]
    omega

/-- nom `be_u16`: two bytes, big-endian. -/
def beU16P : List Nat → Except Unit (Nat × List Nat)
  | a :: b :: rest => .ok ((a <<< 8) ||| b, rest)
  | _ => .error ()

/-- `ipv6::address`: `many_m_n(8, 8, be_u16)` — eight big-endian 16-bit
groups. -/
def parseIpv6Address (l : List Nat) : Except Unit (Ipv6Address × List Nat) := do
  let (p0, l) ← beU16P l
  let (p1, l) ← beU16P l
  let (p2, l) ← beU16P l
  let (p3, l) ← beU16P l
  let (p4, l) ← beU16P l
  let (p5, l) ← beU16P l
  let (p6, l) ← beU16P l
  let (p7, l) ← beU16P l
  .ok (⟨[p0, p1, p2, p3, p4, p5, p6, p7]⟩, l)

/-- `ether::address`: `take(6)`. -/
def parseEtherAddress (l : List Nat) : Except Unit (EtherAddress × List Nat) :=
  if 6 ≤ l.length then .ok (⟨l.take 6⟩, l.drop 6) else .error ()

/-- nom `many0`: repeat the parser until it returns an error, collecting
results.  nom rejects an inner parser that succeeds without consuming
input (the `Many0` error), which also makes the recursion well-founded;
a panic (`none`) anywhere aborts the whole run. -/
def many0 {α : Type} (p : List Nat → Option (Except Unit (α × List Nat))) :
    List Nat → Option (Except Unit (List α × List Nat))
  | l =>
    match p l with
    | none => none
    | some (.error _) => some (.ok ([], l))
    | some (.ok (v, rest)) =>
      if hcons : rest.length < l.length then
        match many0 p rest with
        | none => none
        | some (.error e) => some (.error e)
        | some (.ok (vs, r)) => some (.ok (v :: vs, r))
      else some (.error ())
termination_by l => l.length
decreasing_by exact hcons

/-- `mld_v2_address_record`: record type via the closed enum (unknown
values are a parse error), then `&input[3..]` skips the Aux Data Len byte
and the two Number of Sources bytes *without checking that they are
zero* (panicking when fewer than three bytes remain), then the 16-byte
multicast address. -/
def mldV2AddressRecord (input : List Nat) :
    Option (Except Unit (MldV2AddressRecord × List Nat)) :=
  match input with
  | [] => some (.error ())
  | t :: rest =>
    match Mldv2AddressRecordType.tryFrom t with
    | none => some (.error ())
    | some record_type =>
      if 3 ≤ rest.length then
        match parseIpv6Address (rest.drop 3) with
        | .error e => some (.error e)
        | .ok (address, r) => some (.ok (⟨record_type, address⟩, r))
      else none

/-- `mld_v2_report_packet` (invoked after the type byte): `&input[7..]`
skips the reserved byte, the checksum and the Number of Records field
(panicking when fewer than seven bytes remain), then reads address
records with `many0` until the input is exhausted (`eof`). -/
def mldV2ReportPacket (input : List Nat) : Option (Except Unit IcmpV6Packet) :=
  if 7 ≤ input.length then
    match many0 mldV2AddressRecord (input.drop 7) with
    | none => none
    | some (.error e) => some (.error e)
    | some (.ok (records, r)) =>
      if r.isEmpty then some (.ok (.MldV2Report records)) else some (.error ())
  else none

/-- `proto_enum_with_unknown!(NeighborSolicitationOptionType, u8, ...)`. -/
inductive NeighborSolicitationOptionType where
  | SourceLinkLayerAddress
  | TargetLinkLayerAddress
  | Nonce
  | Unknown (value : Nat)
deriving DecidableEq, Repr

/-- The option-type conversion never fails (open enum). -/
def NeighborSolicitationOptionType.ofByte (value : Nat) :
    NeighborSolicitationOptionType :=
  if value = 1 then .SourceLinkLayerAddress
  else if value = 2 then .TargetLinkLayerAddress
  else if value = 14 then .Nonce
  else .Unknown value

/-- The `inner` closure of `neighbor_solicitation_option`: option type,
length byte, then the typed body.  A `Nonce` body is
`take((length as usize * 8) - 2)`: for `length = 0` the `usize`
subtraction wraps and the huge `take` can only fail (release semantics;
a debug build would panic on the overflow).  An `Unknown` option type is
`todo!`, a panic. -/
def neighborSolicitationOptionInner (l : List Nat) :
    Option (Except Unit (NeighborSolicitationOption × List Nat)) :=
  match l with
  | t :: len :: rest =>
    match NeighborSolicitationOptionType.ofByte t with
    | .SourceLinkLayerAddress =>
      match parseEtherAddress rest with
      | .error e => some (.error e)
      | .ok (address, r) => some (.ok (.SourceLinkLayerAddress address, r))
    | .TargetLinkLayerAddress =>
      match parseEtherAddress rest with
      | .error e => some (.error e)
      | .ok (address, r) => some (.ok (.TargetLinkLayerAddress address, r))
    | .Nonce =>
      if len = 0 then some (.error ())
      else if len * 8 - 2 ≤ rest.length then
        some (.ok (.Nonce (rest.take (len * 8 - 2)), rest.drop (len * 8 - 2)))
      else some (.error ())
    | .Unknown _ => none
  | _ => some (.error ())

/-- `neighbor_solicitation_option`: run `inner` under `consumed`, then
skip padding up to the next 8-byte boundary (`&input[needed_padding..]`
panics when fewer bytes remain). -/
def neighborSolicitationOption (l : List Nat) :
    Option (Except Unit (NeighborSolicitationOption × List Nat)) :=
  match neighborSolicitationOptionInner l with
  | none => none
  | some (.error e) => some (.error e)
  | some (.ok (option, rest)) =>
    let optionBytes := l.length - rest.length
    if optionBytes % 8 = 0 then some (.ok (option, rest))
    else
      let needed := 8 - optionBytes % 8
      if needed ≤ rest.length then some (.ok (option, rest.drop needed))
      else none

/-- `neighbor_solicitation_packet` (after the type byte): `&input[7..]`
skips code, checksum and reserved (panicking when fewer than seven bytes
remain), then the 16-byte target and the options until `eof`. -/
def neighborSolicitationPacket (input : List Nat) :
    Option (Except Unit IcmpV6Packet) :=
  if 7 ≤ input.length then
    match parseIpv6Address (input.drop 7) with
    | .error e => some (.error e)
    | .ok (dest, r) =>
      match many0 neighborSolicitationOption r with
      | none => none
      | some (.error e) => some (.error e)
      | some (.ok (options, r2)) =>
        if r2.isEmpty then some (.ok (.NeighborSolicitation dest options))
        else some (.error ())
  else none

/-- `neighbor_advertisement_packet`: same frame as the solicitation, the
16-byte field being the advertised source. -/
def neighborAdvertisementPacket (input : List Nat) :
    Option (Except Unit IcmpV6Packet) :=
  if 7 ≤ input.length then
    match parseIpv6Address (input.drop 7) with
    | .error e => some (.error e)
    | .ok (src, r) =>
      match many0 neighborSolicitationOption r with
      | none => none
      | some (.error e) => some (.error e)
      | some (.ok (options, r2)) =>
        if r2.isEmpty then some (.ok (.NeighborAdvertisement src options))
        else some (.error ())
  else none

/-- `proto_enum_with_unknown!(Type, u8, ...)` for ICMPv6 message types. -/
inductive IcmpV6Type where
  | DestinationUnreachable
  | TooBig
  | Exceeded
  | Problem
  | EchoRequest
  | EchoReply
  | RouterSolicitation
  | NeighborSolicitation
  | NeighborAdvertisement
  | MldV2Report
  | Unknown (value : Nat)
deriving DecidableEq, Repr

/-- The ICMPv6 type conversion never fails (open enum), so it is
embedded as a total function. -/
def IcmpV6Type.ofByte (value : Nat) : IcmpV6Type :=
  if value = 1 then .DestinationUnreachable
  else if value = 2 then .TooBig
  else if value = 3 then .Exceeded
  else if value = 4 then .Problem
  else if value = 128 then .EchoRequest
  else if value = 129 then .EchoReply
  else if value = 133 then .RouterSolicitation
  else if value = 135 then .NeighborSolicitation
  else if value = 136 then .NeighborAdvertisement
  else if value = 143 then .MldV2Report
  else .Unknown value

/-- `icmpv6::packet(input, pseudo_header)`: verify the checksum (a
non-zero sum is the error value `"icmpv6 checksum invalid"`), read the
type byte, and dispatch to the per-type body parser; every type without
a parser — including `Unknown` — is `todo!`, a panic. -/
def icmpV6PacketDecode (input : List Nat) (ph : PseudoHeader) :
    Option (Except Unit IcmpV6Packet) :=
  match packetChecksum input ph with
  | none => none
  | some cks =>
    if cks ≠ 0 then some (.error ())
    else
      match input with
      | [] => some (.error ())
      | t :: rest =>
        match IcmpV6Type.ofByte t with
        | .RouterSolicitation => some (.ok .RouterSolicitation)
        | .NeighborSolicitation => neighborSolicitationPacket rest
        | .NeighborAdvertisement => neighborAdvertisementPacket rest
        | .MldV2Report => mldV2ReportPacket rest
        | _ => none

/-- Claim C2 (theorem at the failing input).  The ICMPv6 decoder panics on
a one-byte input: the checksum loop steps two bytes at a time over the
41-byte pseudo-header-plus-message buffer and reads `buffer[i + 1]` one
past the end, so `packet` never returns at all — neither a parsed packet
nor an error value. -/
theorem icmpv6_packet_panics_on_odd_input :
    icmpV6PacketDecode [0]
      ⟨⟨List.replicate 8 0⟩, ⟨List.replicate 8 0⟩, 0⟩ = none ∧
    packetChecksum [0]
      ⟨⟨List.replicate 8 0⟩, ⟨List.replicate 8 0⟩, 0⟩ = none := by
  constructor
  · rfl
  · rfl

/-- Counterexample to C6 at a concrete input: encoding a
`NeighborAdvertisement` produces no bytes at all — `Packet::encode` has
no arm for it and hits `todo!` — contradicting the claimed
`136 | 0 | checksum | flags(4) | src(16) | options` output. -/
theorem icmpv6_encode_na_counterexample :
    IcmpV6Packet.encode
      (.NeighborAdvertisement ⟨List.replicate 8 0⟩ [])
      ⟨⟨List.replicate 8 0⟩, ⟨List.replicate 8 0⟩, 0⟩ = none := rfl

/-- Claim C6, amended.  `Packet::encode` is not defined on the
`NeighborAdvertisement` variant: the encoder's match has no arm for it
and panics via `todo!` for every advertised source, option list and
pseudo-header.  (The `Type=136 | Code=0 | Checksum | flags(4) | src(16) |
options` layout of the claim is what the *decoder*
`neighborAdvertisementPacket` consumes, not something the encoder
produces.) -/
theorem icmpv6_encode_na_undefined (src : Ipv6Address)
    (options : List NeighborSolicitationOption) (ph : PseudoHeader) :
    IcmpV6Packet.encode (.NeighborAdvertisement src options) ph = none := rfl

/-- Claim C9.  The MLDv2 Report decoder derives the record list solely
from the remaining input: the seven skipped header bytes — which include
the Number of Records field — are arbitrary (`junk`), each record's Aux
Data Len byte (`aux`) and two Number of Sources bytes (`s1`, `s2`) are
skipped without being checked for zero, and the bytes a record declares
as source addresses are simply consumed as further records: here the
second wire record sits exactly where the first record's declared source
data would. -/
theorem many0_eq_error {α : Type}
    {p : List Nat → Option (Except Unit (α × List Nat))} {l : List Nat}
    (h : p l = some (.error ())) : many0 p l = some (.ok ([], l)) := by
  rw [many0.eq_def]
  dsimp only
  rw [h]

theorem many0_eq_cons {α : Type}
    {p : List Nat → Option (Except Unit (α × List Nat))} {l rest : List Nat}
    {v : α} (h : p l = some (.ok (v, rest))) (hlt : rest.length < l.length) :
    many0 p l = match many0 p rest with
      | none => none
      | some (.error e) => some (.error e)
      | some (.ok (vs, r)) => some (.ok (v :: vs, r)) := by
  rw [many0.eq_def]
  dsimp only
  rw [h]
  simp [hlt]

theorem parseIpv6Address_cons
    (x0 x1 x2 x3 x4 x5 x6 x7 x8 x9 x10 x11 x12 x13 x14 x15 : Nat)
    (rest : List Nat) :
    parseIpv6Address (x0 :: x1 :: x2 :: x3 :: x4 :: x5 :: x6 :: x7 ::
      x8 :: x9 :: x10 :: x11 :: x12 :: x13 :: x14 :: x15 :: rest) =
    .ok (⟨[(x0 <<< 8) ||| x1, (x2 <<< 8) ||| x3, (x4 <<< 8) ||| x5,
      (x6 <<< 8) ||| x7, (x8 <<< 8) ||| x9, (x10 <<< 8) ||| x11,
      (x12 <<< 8) ||| x13, (x14 <<< 8) ||| x15]⟩, rest) := by
  simp [parseIpv6Address, beU16P, Bind.bind, Except.bind]

theorem mldV2AddressRecord_cons (t : Nat) (rt : Mldv2AddressRecordType)
    (ht : Mldv2AddressRecordType.tryFrom t = some rt)
    (aux s1 s2 x0 x1 x2 x3 x4 x5 x6 x7 x8 x9 x10 x11 x12 x13 x14 x15 : Nat)
    (rest : List Nat) :
    mldV2AddressRecord (t :: aux :: s1 :: s2 ::
      x0 :: x1 :: x2 :: x3 :: x4 :: x5 :: x6 :: x7 ::
      x8 :: x9 :: x10 :: x11 :: x12 :: x13 :: x14 :: x15 :: rest) =
    some (.ok (⟨rt, ⟨[(x0 <<< 8) ||| x1, (x2 <<< 8) ||| x3, (x4 <<< 8) ||| x5,
      (x6 <<< 8) ||| x7, (x8 <<< 8) ||| x9, (x10 <<< 8) ||| x11,
      (x12 <<< 8) ||| x13, (x14 <<< 8) ||| x15]⟩⟩, rest)) := by
  simp [mldV2AddressRecord, ht, parseIpv6Address_cons]

theorem mld_report_ignores_counts
    (junk : List Nat) (hj : junk.length = 7) (aux s1 s2 : Nat)
    (a0 a1 a2 a3 a4 a5 a6 a7 a8 a9 a10 a11 a12 a13 a14 a15 : Nat)
    (b0 b1 b2 b3 b4 b5 b6 b7 b8 b9 b10 b11 b12 b13 b14 b15 : Nat) :
    mldV2ReportPacket (junk ++
      2 :: aux :: s1 :: s2 ::
      a0 :: a1 :: a2 :: a3 :: a4 :: a5 :: a6 :: a7 ::
      a8 :: a9 :: a10 :: a11 :: a12 :: a13 :: a14 :: a15 ::
      3 :: 0 :: 0 :: 0 ::
      b0 :: b1 :: b2 :: b3 :: b4 :: b5 :: b6 :: b7 ::
      b8 :: b9 :: b10 :: b11 :: b12 :: b13 :: b14 :: b15 :: []) =
    some (.ok (.MldV2Report
      [⟨.CodeIsExclude,
        ⟨[(a0 <<< 8) ||| a1, (a2 <<< 8) ||| a3, (a4 <<< 8) ||| a5,
          (a6 <<< 8) ||| a7, (a8 <<< 8) ||| a9, (a10 <<< 8) ||| a11,
          (a12 <<< 8) ||| a13, (a14 <<< 8) ||| a15]⟩⟩,
       ⟨.ChangeToIncludeMode,
        ⟨[(b0 <<< 8) ||| b1, (b2 <<< 8) ||| b3, (b4 <<< 8) ||| b5,
          (b6 <<< 8) ||| b7, (b8 <<< 8) ||| b9, (b10 <<< 8) ||| b11,
          (b12 <<< 8) ||| b13, (b14 <<< 8) ||| b15]⟩⟩])) := by
  have hdrop : ∀ rest : List Nat, (junk ++ rest).drop 7 = rest := by
    intro rest
    rw [← hj]
    exact List.drop_left junk rest
  have hlen : ∀ rest : List Nat, (junk ++ rest).length = 7 + rest.length := by
    intro rest
    simp [hj]
  unfold mldV2ReportPacket
  rw [if_pos (by rw [hlen]; omega), hdrop]
  rw [many0_eq_cons (mldV2AddressRecord_cons 2 .CodeIsExclude rfl
    aux s1 s2 a0 a1 a2 a3 a4 a5 a6 a7 a8 a9 a10 a11 a12 a13 a14 a15 _)
    (by simp)]
  rw [many0_eq_cons (mldV2AddressRecord_cons 3 .ChangeToIncludeMode rfl
    0 0 0 b0 b1 b2 b3 b4 b5 b6 b7 b8 b9 b10 b11 b12 b13 b14 b15 [])
    (by simp)]
  rw [many0_eq_error (show mldV2AddressRecord [] = some (.error ()) from rfl)]
  simp

/-- Witness for C9: the source's `multicast_listener_packet_decodes` byte
layout with record types 2 and 3 and a nonzero Aux Data Len (`170`) and
Number of Sources (`1`) in the first record. -/
theorem mld_report_ignores_counts_witness :
    ([0, 43, 90, 0, 0, 0, 2] : List Nat).length = 7 ∧
    mldV2ReportPacket ([0, 43, 90, 0, 0, 0, 2] ++
      2 :: 170 :: 0 :: 1 ::
      0xff :: 5 :: 0 :: 0 :: 0 :: 0 :: 0 :: 0 ::
      0 :: 0 :: 0 :: 0 :: 0 :: 1 :: 0 :: 3 ::
      3 :: 0 :: 0 :: 0 ::
      0xff :: 2 :: 0 :: 0 :: 0 :: 0 :: 0 :: 0 ::
      0 :: 0 :: 0 :: 0 :: 0 :: 1 :: 0 :: 2 :: []) =
    some (.ok (.MldV2Report
      [⟨.CodeIsExclude, ⟨[0xff05, 0, 0, 0, 0, 0, 1, 3]⟩⟩,
       ⟨.ChangeToIncludeMode, ⟨[0xff02, 0, 0, 0, 0, 0, 1, 2]⟩⟩])) :=
  ⟨by decide,
    mld_report_ignores_counts [0, 43, 90, 0, 0, 0, 2] (by decide) 170 0 1
      0xff 5 0 0 0 0 0 0 0 0 0 0 0 1 0 3
      0xff 2 0 0 0 0 0 0 0 0 0 0 0 1 0 2⟩

/-- Witness for C3 at a concrete packet: an empty MLDv2 Report with the
zero pseudo-header encodes to `8f00 70bd 0000 0000` and re-checksums to
zero. -/
theorem icmpv6_encode_checksum_valid_witness :
    IcmpV6Packet.encode (.MldV2Report [])
      ⟨⟨List.replicate 8 0⟩, ⟨List.replicate 8 0⟩, 0⟩ =
      some [143, 0, 112, 189, 0, 0, 0, 0] ∧
    packetChecksum [143, 0, 112, 189, 0, 0, 0, 0]
      ⟨⟨List.replicate 8 0⟩, ⟨List.replicate 8 0⟩,
        ([143, 0, 112, 189, 0, 0, 0, 0] : List Nat).length⟩ = some 0 := by
  have henc : IcmpV6Packet.encode (.MldV2Report [])
      ⟨⟨List.replicate 8 0⟩, ⟨List.replicate 8 0⟩, 0⟩ =
      some [143, 0, 112, 189, 0, 0, 0, 0] := by
    simp only [IcmpV6Packet.encode, IcmpV6Packet.encodeBodyZero,
      packetChecksum, pseudoHeaderBytes, addrBytes, be16, be32, wordSum,
      bnot16, foldCarry_closed, ProtocolNumber.encodeByte, List.replicate,
      List.flatMap_cons, List.flatMap_nil]
    decide
  exact ⟨henc, icmpv6_encode_checksum_valid _ _ _ henc⟩

/-! ## ARP (`src/protocols/arp.rs`) -/

/-- `proto_enum!(ArpPacketOpcode, u16, { Request = 1, Reply = 2 })`. -/
inductive ArpPacketOpcode where
  | Request
  | Reply
deriving DecidableEq, Repr

/-- `TryFrom<u16>` for the closed opcode enum: other values fail. -/
def ArpPacketOpcode.tryFrom (value : Nat) : Option ArpPacketOpcode :=
  if value = 1 then some .Request
  else if value = 2 then some .Reply
  else none

/-- The opcode's `u16` discriminant. -/
def ArpPacketOpcode.toU16 : ArpPacketOpcode → Nat
  | .Request => 1
  | .Reply => 2

/-- `ArpPacket { opcode, src_ether, src_ipv4, dest_ether, dest_ipv4 }`. -/
structure ArpPacket where
  opcode : ArpPacketOpcode
  src_ether : EtherAddress
  src_ipv4 : Ipv4Address
  dest_ether : EtherAddress
  dest_ipv4 : Ipv4Address
deriving DecidableEq, Repr

/-- `ArpPacket::encode`: `encode!(1u16, EtherType::Ipv4 as u16, 6u8, 4u8,
opcode, src_ether, src_ipv4, dest_ether, dest_ipv4)`. -/
def ArpPacket.encodeBytes (p : ArpPacket) : List Nat :=
  be16 1 ++ be16 0x0800 ++ [6, 4] ++ be16 p.opcode.toU16 ++
    p.src_ether.bytes ++ p.src_ipv4.bytes ++ p.dest_ether.bytes ++
    p.dest_ipv4.bytes

/-- `arp_packet`: verify hardware type 1, protocol type `0x0800`,
hardware length 6, protocol length 4; read the opcode through the closed
enum; then the two address pairs.  Trailing input is not rejected (the
parser never checks `eof`).  All failures are nom error values; since the
function has no panic path the embedding returns a plain `Option`. -/
def arpPacket (input : List Nat) : Option ArpPacket :=
  match input with
  | h1 :: h2 :: p1 :: p2 :: hln :: pln :: o1 :: o2 :: rest =>
    if (h1 <<< 8) ||| h2 = 1 then
      if (p1 <<< 8) ||| p2 = 0x0800 then
        if hln = 6 then
          if pln = 4 then
            match ArpPacketOpcode.tryFrom ((o1 <<< 8) ||| o2) with
            | none => none
            | some opcode =>
              if 20 ≤ rest.length then
                some ⟨opcode, ⟨rest.take 6⟩, ⟨(rest.drop 6).take 4⟩,
                  ⟨(rest.drop 10).take 6⟩, ⟨(rest.drop 16).take 4⟩⟩
              else none
          else none
        else none
      else none
    else none
  | _ => none

/-- One iteration of the `ArpServer::start` run loop for an already
received frame.  The source `unwrap`s the parse result, so a payload that
fails to parse panics (outer `none`); otherwise the loop sends a reply
frame exactly when the parsed packet's `dest_ipv4` is in the owned
address set — without ever looking at the opcode — and sends nothing
otherwise (`some none`). -/
def arpStep (srcEther : EtherAddress) (addresses : List Ipv4Address)
    (frame : EtherFrame) : Option (Option EtherFrame) :=
  match arpPacket frame.payload with
  | none => none
  | some packet =>
    if packet.dest_ipv4 ∈ addresses then
      some (some
        { dest := packet.src_ether
          src := srcEther
          ethertype := .Arp
          payload := ArpPacket.encodeBytes
            ⟨.Reply, srcEther, packet.dest_ipv4, packet.src_ether,
              packet.src_ipv4⟩ })
    else some none

/-- Counterexample to C5 at a concrete input: an ARP *Reply* (opcode 2,
not a Request) addressed to an owned IPv4 address still triggers a
response frame, where the claim says nothing is sent for packets that
are not Requests. -/
theorem arp_step_replies_to_reply_counterexample :
    (arpPacket (ArpPacket.encodeBytes
        ⟨.Reply, ⟨[0, 10, 245, 109, 188, 132]⟩, ⟨[10, 0, 1, 235]⟩,
          ⟨[0, 0, 0, 0, 0, 0]⟩, ⟨[10, 0, 0, 2]⟩⟩)).map (fun p => p.opcode) =
      some .Reply ∧
    arpStep ⟨[2, 1, 2, 3, 4, 5]⟩ [⟨[10, 0, 0, 2]⟩]
      ⟨⟨[2, 1, 2, 3, 4, 5]⟩, ⟨[0, 10, 245, 109, 188, 132]⟩, .Arp,
        ArpPacket.encodeBytes
          ⟨.Reply, ⟨[0, 10, 245, 109, 188, 132]⟩, ⟨[10, 0, 1, 235]⟩,
            ⟨[0, 0, 0, 0, 0, 0]⟩, ⟨[10, 0, 0, 2]⟩⟩⟩ =
      some (some
        { dest := ⟨[0, 10, 245, 109, 188, 132]⟩
          src := ⟨[2, 1, 2, 3, 4, 5]⟩
          ethertype := .Arp
          payload := ArpPacket.encodeBytes
            ⟨.Reply, ⟨[2, 1, 2, 3, 4, 5]⟩, ⟨[10, 0, 0, 2]⟩,
              ⟨[0, 10, 245, 109, 188, 132]⟩, ⟨[10, 0, 1, 235]⟩⟩ }) := by
  constructor
  · decide
  · decide

/-- Claim C5, amended.  For every inbound frame whose payload parses as
an ARP packet, one loop iteration sends a reply if and only if the
packet's `dest_ipv4` is in the owned set — regardless of opcode, since
the loop never inspects it; the reply is a single Ethernet frame with
ethertype Arp, frame dest the requester's MAC, frame src the actor's
MAC, and an ARP payload with opcode Reply, `src_ether` the actor's MAC,
`src_ipv4` the requested IPv4, `dest_ether` the requester's MAC and
`dest_ipv4` the requester's IPv4; otherwise nothing is sent. -/
theorem arp_step_characterization (srcEther : EtherAddress)
    (addresses : List Ipv4Address) (frame : EtherFrame) (packet : ArpPacket)
    (h : arpPacket frame.payload = some packet) :
    arpStep srcEther addresses frame =
      some (if packet.dest_ipv4 ∈ addresses then
        some
          { dest := packet.src_ether
            src := srcEther
            ethertype := .Arp
            payload := ArpPacket.encodeBytes
              ⟨.Reply, srcEther, packet.dest_ipv4, packet.src_ether,
                packet.src_ipv4⟩ }
        else none) := by
  unfold arpStep
  rw [h]
  dsimp only
  by_cases hm : packet.dest_ipv4 ∈ addresses
  · simp only [if_pos hm]
  · simp only [if_neg hm]

/-- Witness for C5 at the source's `reply_packet_decodes` Request vector
with the requested address owned. -/
theorem arp_step_characterization_witness :
    arpPacket (ArpPacket.encodeBytes
        ⟨.Request, ⟨[0, 10, 245, 109, 188, 132]⟩, ⟨[10, 0, 1, 235]⟩,
          ⟨[0, 0, 0, 0, 0, 0]⟩, ⟨[10, 0, 0, 2]⟩⟩) =
      some ⟨.Request, ⟨[0, 10, 245, 109, 188, 132]⟩, ⟨[10, 0, 1, 235]⟩,
        ⟨[0, 0, 0, 0, 0, 0]⟩, ⟨[10, 0, 0, 2]⟩⟩ ∧
    arpStep ⟨[2, 1, 2, 3, 4, 5]⟩ [⟨[10, 0, 0, 2]⟩]
      ⟨⟨[2, 1, 2, 3, 4, 5]⟩, ⟨[0, 10, 245, 109, 188, 132]⟩, .Arp,
        ArpPacket.encodeBytes
          ⟨.Request, ⟨[0, 10, 245, 109, 188, 132]⟩, ⟨[10, 0, 1, 235]⟩,
            ⟨[0, 0, 0, 0, 0, 0]⟩, ⟨[10, 0, 0, 2]⟩⟩⟩ =
      some (if (⟨[10, 0, 0, 2]⟩ : Ipv4Address) ∈
          [(⟨[10, 0, 0, 2]⟩ : Ipv4Address)] then
        some
          { dest := ⟨[0, 10, 245, 109, 188, 132]⟩
            src := ⟨[2, 1, 2, 3, 4, 5]⟩
            ethertype := .Arp
            payload := ArpPacket.encodeBytes
              ⟨.Reply, ⟨[2, 1, 2, 3, 4, 5]⟩, ⟨[10, 0, 0, 2]⟩,
                ⟨[0, 10, 245, 109, 188, 132]⟩, ⟨[10, 0, 1, 235]⟩⟩ }
        else none) :=
  ⟨by decide,
    arp_step_characterization ⟨[2, 1, 2, 3, 4, 5]⟩ [⟨[10, 0, 0, 2]⟩]
      ⟨⟨[2, 1, 2, 3, 4, 5]⟩, ⟨[0, 10, 245, 109, 188, 132]⟩, .Arp,
        ArpPacket.encodeBytes
          ⟨.Request, ⟨[0, 10, 245, 109, 188, 132]⟩, ⟨[10, 0, 1, 235]⟩,
            ⟨[0, 0, 0, 0, 0, 0]⟩, ⟨[10, 0, 0, 2]⟩⟩⟩
      ⟨.Request, ⟨[0, 10, 245, 109, 188, 132]⟩, ⟨[10, 0, 1, 235]⟩,
        ⟨[0, 0, 0, 0, 0, 0]⟩, ⟨[10, 0, 0, 2]⟩⟩
      (by decide)⟩

/-! ## IPv6 packets and their extension-header chain
(`src/protocols/ipv6/packet.rs`) -/

/-- Modelled from the spec: `round_up_to_next(n, a)` rounds `n` up to
the next multiple of `a`, "A `round_up_to_next(n, a)` utility supports
alignment of extension headers to 8 bytes".  The helper is imported from
`encdec` in the source but absent from the provided sources. -/
def roundUpToNext (n a : Nat) : Nat :=
  ((n + a - 1) / a) * a

/-- `proto_enum_with_unknown!(RouterAlertType, u16,
{ Mld = 0, Rsvp = 1, ActiveNetworks = 2 })`. -/
inductive RouterAlertType where
  | Mld
  | Rsvp
  | ActiveNetworks
  | Unknown (value : Nat)
deriving DecidableEq, Repr

/-- The `u16` discriminant written by `EncodeTo`. -/
def RouterAlertType.toU16 : RouterAlertType → Nat
  | .Mld => 0
  | .Rsvp => 1
  | .ActiveNetworks => 2
  | .Unknown value => value

/-- `enum HopByHopOption { RouterAlert(RouterAlertType) }`. -/
inductive HopByHopOption where
  | RouterAlert (alertType : RouterAlertType)
deriving DecidableEq, Repr

/-- `EncodeTo for HopByHopOption`: option type `RouterAlert = 5`, length
`2`, then the alert type as big-endian `u16`. -/
def HopByHopOption.encodeBytes : HopByHopOption → List Nat
  | .RouterAlert t => 5 :: 2 :: be16 t.toU16

/-- `enum ExtensionHeader { HopByHopOptions(Vec<HopByHopOption>) }`. -/
inductive ExtensionHeader where
  | HopByHopOptions (options : List HopByHopOption)
deriving DecidableEq, Repr

instance : Inhabited ExtensionHeader := ⟨.HopByHopOptions []⟩

/-- `ExtensionHeader::next_header()`: the chain type a header occupies
on the wire (only `HopByHopOptions` exists). -/
def ExtensionHeader.nextHeader : ExtensionHeader → NextHeader
  | .HopByHopOptions _ => .HopByHopOptions

/-- The extension header's on-wire type byte, via its `next_header()`
value and the `NextHeader` encoding (never `Unset`, hence total). -/
def extTypeByte (h : ExtensionHeader) : Nat :=
  h.nextHeader.encodeByte.getD 0

/-- The concatenated encodings of a header's options. -/
def ExtensionHeader.optionsBytes : ExtensionHeader → List Nat
  | .HopByHopOptions options => options.flatMap HopByHopOption.encodeBytes

/-- `EncodeTo for ExtensionHeader`, without the next-header byte (the
caller writes that): the length byte `(target_len - 6) as u8 / 8`
followed by the options resized to `target_len = round_up_to_next(
options_len + 2, 8) - 2` — the resize pads with zeros, and when at least
two padding bytes are needed the first two become a PadN header
`[1, pad - 2]`. -/
def ExtensionHeader.encodeBody (h : ExtensionHeader) : List Nat :=
  let eo := h.optionsBytes
  let start := eo.length
  let target := roundUpToNext (start + 2) 8 - 2
  let padded := eo ++
    (if target - start ≤ 1 then List.replicate (target - start) 0
     else 1 :: (target - start - 2) :: List.replicate (target - start - 2) 0)
  ((target - 6) % 256) / 8 :: padded

/-- `Packet::encode_extension_headers(final_next_header)`: the source
pre-sizes a buffer to `encoded_len + count` and, for each index `i`,
writes one next-header byte — the following header's type, or the
packet's final next-header for the last — followed by the header body,
advancing by exactly the bytes written; the result is therefore the
concatenation over the indices.  The only panic is encoding `Unset` as
the final next-header byte (`none`); an empty chain yields no bytes. -/
def encodeExtensionHeaders (exts : List ExtensionHeader)
    (final : NextHeader) : Option (List Nat) :=
  if exts.isEmpty then some []
  else
    match final.encodeByte with
    | none => none
    | some fb =>
      some (((List.range exts.length).map fun i =>
        (if i = exts.length - 1 then fb
         else extTypeByte (exts.getD (i + 1) default)) ::
          (exts.getD i default).encodeBody).flatten)

/-- `ipv6::Packet`. -/
structure Ipv6Packet where
  traffic_class : Nat
  flow_label : Nat
  next_header : NextHeader
  hop_limit : Nat
  src : Ipv6Address
  dest : Ipv6Address
  extension_headers : List ExtensionHeader
  payload : List Nat
deriving DecidableEq, Repr

/-- `Packet::encode`: the version/class/label prelude, the payload
length (`extension bytes + payload bytes` as `u16`), the first on-wire
next-header byte (the first extension header's type if any, else the
packet's own `next_header` — encoding `Unset` there panics), the hop
limit, both addresses, the encoded extension headers and the payload. -/
def Ipv6Packet.encode (p : Ipv6Packet) : Option (List Nat) :=
  let prelude := (6 <<< 28) ||| (p.traffic_class <<< 20) ||| p.flow_label
  let firstNh := match p.extension_headers with
    | [] => p.next_header
    | h :: _ => h.nextHeader
  match encodeExtensionHeaders p.extension_headers p.next_header with
  | none => none
  | some ext =>
    match firstNh.encodeByte with
    | none => none
    | some fb =>
      some (be32 prelude ++ be16 ((ext.length + p.payload.length) % 65536) ++
        [fb] ++ [p.hop_limit] ++ addrBytes p.src ++ addrBytes p.dest ++
        ext ++ p.payload)

/-- The specification's wording of the re-linked chain, one header at a
time: each header's on-wire next-header byte is the *following*
extension header's type, and the last header's byte is the packet's
final protocol.  Compared against the source encoder in
`ipv6_encode_relinks_chain`. -/
def specChainBytes : List ExtensionHeader → Nat → List Nat
  | [], _ => []
  | h :: rest, finalByte =>
    (match rest with
     | [] => finalByte
     | h2 :: _ => extTypeByte h2) :: h.encodeBody ++ specChainBytes rest finalByte

theorem chain_flatten_eq_spec (fb : Nat) :
    ∀ exts : List ExtensionHeader,
      ((List.range exts.length).map fun i =>
        (if i = exts.length - 1 then fb
         else extTypeByte (exts.getD (i + 1) default)) ::
          (exts.getD i default).encodeBody).flatten = specChainBytes exts fb
  | [] => by simp [specChainBytes]
  | h :: rest => by
    have ih := chain_flatten_eq_spec fb rest
    cases rest with
    | nil => simp [specChainBytes, List.range_succ]
    | cons h2 t =>
      rw [show (h :: h2 :: t).length = (h2 :: t).length + 1 from rfl,
        List.range_succ_eq_map, List.map_cons, List.map_map,
        List.flatten_cons]
      have hmapeq :
          (List.range (h2 :: t).length).map
              ((fun i =>
                (if i = (h2 :: t).length + 1 - 1 then fb
                 else extTypeByte ((h :: h2 :: t).getD (i + 1) default)) ::
                  ((h :: h2 :: t).getD i default).encodeBody) ∘ Nat.succ) =
            (List.range (h2 :: t).length).map fun i =>
              (if i = (h2 :: t).length - 1 then fb
               else extTypeByte ((h2 :: t).getD (i + 1) default)) ::
                ((h2 :: t).getD i default).encodeBody := by
        apply List.map_congr_left
        intro i hi
        simp only [Function.comp_apply, Nat.succ_eq_add_one,
          List.length_cons, List.getD_cons_succ]
        by_cases hit : i = t.length
        · subst hit
          simp
        · have hc1 : ¬(i + 1 + 1 = t.length + 1 + 1) := by omega
          have hc2 : ¬(i = t.length) := hit
          have he1 : (i + 1 = t.length + 1 + 1 - 1) = False := by
            simp only [eq_iff_iff, iff_false]
            omega
          have he2 : (i = t.length + 1 - 1) = False := by
            simp only [eq_iff_iff, iff_false]
            omega
          simp only [he1, he2, if_false]
      rw [hmapeq, ih]
      simp [specChainBytes]

/-- Claim C7.  For every IPv6 packet whose final `next_header` encodes
(i.e. is not `Unset`), the encoder re-links the chain: the fixed
header's next-header byte is the first extension header's type when the
chain is non-empty and the packet's final protocol otherwise, and the
extension-header bytes are exactly `specChainBytes` — each header
carries the following header's type, the last carries the final
protocol. -/
theorem ipv6_encode_relinks_chain (p : Ipv6Packet) (fb : Nat)
    (hfb : p.next_header.encodeByte = some fb) :
    p.encode = some (
      be32 ((6 <<< 28) ||| (p.traffic_class <<< 20) ||| p.flow_label) ++
      be16 (((specChainBytes p.extension_headers fb).length +
        p.payload.length) % 65536) ++
      [(match p.extension_headers with
        | [] => fb
        | h :: _ => extTypeByte h)] ++
      [p.hop_limit] ++ addrBytes p.src ++ addrBytes p.dest ++
      specChainBytes p.extension_headers fb ++ p.payload) := by
  have hext : encodeExtensionHeaders p.extension_headers p.next_header =
      some (specChainBytes p.extension_headers fb) := by
    unfold encodeExtensionHeaders
    cases hcase : p.extension_headers with
    | nil => simp [specChainBytes]
    | cons h rest =>
      rw [if_neg (by simp), hfb]
      dsimp only
      rw [chain_flatten_eq_spec fb (h :: rest)]
  unfold Ipv6Packet.encode
  rw [hext]
  dsimp only
  cases hcase : p.extension_headers with
  | nil =>
    dsimp only
    rw [hfb]
  | cons h rest =>
    dsimp only
    have hnh : h.nextHeader.encodeByte = some (extTypeByte h) := by
      cases h with
      | HopByHopOptions options => rfl
    rw [hnh]

/-- Witness for C7 at a concrete packet: ICMPv6 protocol, one
hop-by-hop Router-Alert(Mld) extension header, a two-byte payload. -/
theorem ipv6_encode_relinks_chain_witness :
    (NextHeader.Protocol .Ipv6Icmp).encodeByte = some 58 ∧
    Ipv6Packet.encode
      ⟨0, 0, .Protocol .Ipv6Icmp, 1, ⟨List.replicate 8 0⟩,
        ⟨[0xff02, 0, 0, 0, 0, 0, 0, 0x16]⟩,
        [.HopByHopOptions [.RouterAlert .Mld]], [0xAB, 0xCD]⟩ =
      some (
        be32 ((6 <<< 28) ||| (0 <<< 20) ||| 0) ++
        be16 (((specChainBytes [.HopByHopOptions [.RouterAlert .Mld]]
          58).length + ([0xAB, 0xCD] : List Nat).length) % 65536) ++
        [(match ([.HopByHopOptions [.RouterAlert .Mld]] :
            List ExtensionHeader) with
          | [] => 58
          | h :: _ => extTypeByte h)] ++
        [1] ++ addrBytes ⟨List.replicate 8 0⟩ ++
        addrBytes ⟨[0xff02, 0, 0, 0, 0, 0, 0, 0x16]⟩ ++
        specChainBytes [.HopByHopOptions [.RouterAlert .Mld]] 58 ++
        [0xAB, 0xCD]) :=
  ⟨rfl,
    ipv6_encode_relinks_chain
      ⟨0, 0, .Protocol .Ipv6Icmp, 1, ⟨List.replicate 8 0⟩,
        ⟨[0xff02, 0, 0, 0, 0, 0, 0, 0x16]⟩,
        [.HopByHopOptions [.RouterAlert .Mld]], [0xAB, 0xCD]⟩ 58 rfl⟩

/-- Sanity check against the source's
`packet_with_hop_by_hop_options_encodes` test vector. -/
example :
    Ipv6Packet.encode
      ⟨0, 0, .Protocol .Ipv6Icmp, 1, ⟨List.replicate 8 0⟩,
        ⟨[0xff02, 0, 0, 0, 0, 0, 0, 0x16]⟩,
        [.HopByHopOptions [.RouterAlert .Mld]],
        [143, 0, 141, 202, 0, 0, 0, 1, 4, 0, 0, 0, 255, 2, 0, 0, 0, 0, 0, 0, 0, 0, 0, 1, 255, 249, 224, 198]⟩ =
      some [96, 0, 0, 0, 0, 36, 0, 1, 0, 0, 0, 0, 0, 0, 0, 0, 0, 0, 0, 0, 0, 0, 0, 0, 255, 2, 0, 0, 0, 0, 0, 0, 0, 0, 0, 0, 0, 0, 0, 22, 58, 0, 5, 2, 0, 0, 1, 0, 143, 0, 141, 202, 0, 0, 0, 1, 4, 0, 0, 0, 255, 2, 0, 0, 0, 0, 0, 0, 0, 0, 0, 1, 255, 249, 224, 198] := by decide

/-! ## IPv6 address text forms (`Display` and `FromStr` in
`src/protocols/ipv6/address.rs`) -/

/-- One lower-case hex digit (`{:x}`). -/
def toHexDigit (n : Nat) : Char :=
  if n < 10 then Char.ofNat (48 + n) else Char.ofNat (87 + n)

/-- `{:x}` on a `u16` group: up to four hex digits, lower-case, no
leading zeros (defined for the `u16` domain `n < 65536`). -/
def toHexU16 (n : Nat) : List Char :=
  if n < 16 then [toHexDigit n]
  else if n < 256 then [toHexDigit (n / 16), toHexDigit (n % 16)]
  else if n < 4096 then
    [toHexDigit (n / 256), toHexDigit (n / 16 % 16), toHexDigit (n % 16)]
  else
    [toHexDigit (n / 4096 % 16), toHexDigit (n / 256 % 16),
      toHexDigit (n / 16 % 16), toHexDigit (n % 16)]

/-- The first scan loop of `Display for Address`: find the zero run the
display will elide.  The source scans run by run, comparing each
completed run's length strictly against the best so far (so the earliest
longest run wins, `longest_zeroes_start` staying `8` when there is no
zero at all).  Scanning element by element and comparing each extended
run strictly against the best selects exactly the same run: a later run
only displaces the best when it becomes strictly longer. -/
def longestZeroRunGo : List Nat → Nat → Nat → Nat → Nat → Nat × Nat
  | [], _, _, bestStart, bestLen => (bestStart, bestLen)
  | x :: rest, i, curLen, bestStart, bestLen =>
    if x = 0 then
      if bestLen < curLen + 1 then
        longestZeroRunGo rest (i + 1) (curLen + 1) (i + 1 - (curLen + 1))
          (curLen + 1)
      else
        longestZeroRunGo rest (i + 1) (curLen + 1) bestStart bestLen
    else
      longestZeroRunGo rest (i + 1) 0 bestStart bestLen

/-- The elided run `(longest_zeroes_start, longest_zeroes_len)`. -/
def longestZeroRun (parts : List Nat) : Nat × Nat :=
  longestZeroRunGo parts 0 0 8 0

/-- The second loop of `Display for Address`, written as the
concatenation the loop produces.  Outside the elided run, group `i`
prints in hex followed by `:` unless `i = 7`.  At the run the loop
writes one `:`, then one more for each in-run index `i` with `i = 0` or
`i = 7` — note that a run ending at group 7 therefore gets a third
colon, since the group before the run already wrote its separator. -/
def displayChars (a : Ipv6Address) : List Char :=
  let (s, l) := longestZeroRun a.parts
  if 8 ≤ s then
    ((List.range 8).map fun i =>
      toHexU16 (a.parts.getD i 0) ++ if i = 7 then [] else [':']).flatten
  else
    ((List.range s).map fun i =>
      toHexU16 (a.parts.getD i 0) ++ if i = 7 then [] else [':']).flatten
    ++ [':']
    ++ (if s = 0 then [':'] else [])
    ++ (if s + l = 8 then [':'] else [])
    ++ ((List.range (8 - (s + l))).map fun j =>
        toHexU16 (a.parts.getD (s + l + j) 0) ++
          if s + l + j = 7 then [] else [':']).flatten

/-- `char::is_digit(16)`: decimal digits and hex letters of either
case. -/
def isHexDigitChar (c : Char) : Bool :=
  c.isDigit || ('a' ≤ c && c ≤ 'f') || ('A' ≤ c && c ≤ 'F')

/-- The numeric value of one hex digit (`u16::from_str_radix`). -/
def hexVal (c : Char) : Nat :=
  if c.isDigit then c.toNat - 48
  else if 'a' ≤ c then c.toNat - 87
  else c.toNat - 55

/-- `address_part`: `take_while_m_n(1, 4, is_hex_digit)` (maximal munch,
at most four digits) mapped through `from_str_radix(_, 16)`, which on at
most four hex digits always succeeds. -/
def addressPart (cs : List Char) : Except Unit (Nat × List Char) :=
  let ds := (cs.takeWhile isHexDigitChar).take 4
  if ds.isEmpty then .error ()
  else .ok (ds.foldl (fun acc c => acc * 16 + hexVal c) 0, cs.drop ds.length)

/-- The repetition of `separated_list1(tag(":"), address_part)` after
its first element: consume `":" address_part` pairs, backtracking the
separator when the part fails.  Fuel is the remaining length; each
iteration consumes at least two characters, so the loop always stops on
its own before the fuel runs out. -/
def sepListGo (fuel : Nat) (cs : List Char) : List Nat × List Char :=
  match fuel with
  | 0 => ([], cs)
  | fuel + 1 =>
    match cs with
    | ':' :: rest =>
      match addressPart rest with
      | .error _ => ([], cs)
      | .ok (v, rest2) =>
        let (vs, r) := sepListGo fuel rest2
        (v :: vs, r)
    | _ => ([], cs)

/-- `separated_list1(tag(":"), address_part)`. -/
def sepList1 (cs : List Char) : Except Unit (List Nat × List Char) :=
  match addressPart cs with
  | .error e => .error e
  | .ok (v, rest) =>
    let (vs, r) := sepListGo rest.length rest
    .ok (v :: vs, r)

/-- `FromStr for Address` (RFC 2373): optional head list, optional
`"::"` placeholder, optional tail list, then `eof`; more than eight
parts or, without a placeholder, fewer than eight are errors; with a
placeholder the result is resized so the zeros fill the middle.  All
failures are error values, embedded as `none`. -/
def ipv6FromStr (cs : List Char) : Option Ipv6Address :=
  let (headVals, cs1) :=
    match sepList1 cs with
    | .error _ => ([], cs)
    | .ok (vs, rest) => (vs, rest)
  let (placeholder, cs2) :=
    match cs1 with
    | ':' :: ':' :: rest => (true, rest)
    | _ => (false, cs1)
  let (tailVals, cs3) :=
    match sepList1 cs2 with
    | .error _ => ([], cs2)
    | .ok (vs, rest) => (vs, rest)
  if cs3.isEmpty then
    if headVals.length + tailVals.length > 8 then none
    else if placeholder then
      some ⟨headVals ++
        List.replicate (8 - tailVals.length - headVals.length) 0 ++ tailVals⟩
    else if headVals.length + tailVals.length < 8 then none
    else some ⟨headVals ++ tailVals⟩
  else none

/-- Claim C1 (theorem at the failing input).  The address `fedc::`
displays as `"fedc:::"` — the elided run ends at group 7, so the loop
emits a third colon — and `from_str` rejects that string, so
`from_str(display(a))` is not `a` there; the same happens for every
address whose longest zero run reaches group 7 (including `::`, which
displays as `":::"`). -/
theorem display_fedc_roundtrip_fails :
    displayChars ⟨[0xfedc, 0, 0, 0, 0, 0, 0, 0]⟩ =
      ['f', 'e', 'd', 'c', ':', ':', ':'] ∧
    ipv6FromStr ['f', 'e', 'd', 'c', ':', ':', ':'] = none ∧
    displayChars ⟨[0, 0, 0, 0, 0, 0, 0, 0]⟩ = [':', ':', ':'] ∧
    ipv6FromStr [':', ':', ':'] = none := by
  refine ⟨by decide, by decide, by decide, by decide⟩

/-- Sanity: the source's `display_shows_full_addresses` test. -/
example :
    displayChars ⟨[0xfedc, 0xba98, 0x7654, 0x3210,
      0xfedc, 0xba98, 0x7654, 0x3210]⟩ =
    "fedc:ba98:7654:3210:fedc:ba98:7654:3210".data := by decide

/-- Sanity: the source's `display_abbreviates_runs_of_zeroes` test. -/
example : displayChars ⟨[0, 0, 0, 0, 0, 0, 0, 1]⟩ = "::1".data := by decide

/-- Sanity: the source's `display_abbreviates_longest_run_of_zeroes`
test (both vectors, middle runs). -/
example :
    displayChars ⟨[0xfedc, 0, 0, 0, 0xfedc, 0, 0, 0x3210]⟩ =
      "fedc::fedc:0:0:3210".data ∧
    displayChars ⟨[0xfedc, 0, 0, 0x3210, 0, 0, 0, 0x3210]⟩ =
      "fedc:0:0:3210::3210".data := by decide

/-- Sanity: the source's `partial_address_parses` and failing parse
tests. -/
example :
    ipv6FromStr "1080::8:800:200c:417a".data =
      some ⟨[0x1080, 0, 0, 0, 8, 0x800, 0x200c, 0x417a]⟩ ∧
    ipv6FromStr "::1".data = some ⟨[0, 0, 0, 0, 0, 0, 0, 1]⟩ ∧
    ipv6FromStr "::".data = some ⟨[0, 0, 0, 0, 0, 0, 0, 0]⟩ ∧
    ipv6FromStr "1080::8::417a".data = none ∧
    ipv6FromStr "1080:8:417a".data = none := by decide

/-- Sanity: the round trip does hold for a middle zero run. -/
example :
    ipv6FromStr (displayChars ⟨[0xfedc, 0, 0, 0, 0xfedc, 0, 0, 0x3210]⟩) =
      some ⟨[0xfedc, 0, 0, 0, 0xfedc, 0, 0, 0x3210]⟩ := by decide

end Fakenet
